import Mathlib

/-!
# Verification of the `colony` reactive dataflow library (`colony/node.py`)

A shallow embedding of the port / worker / node / graph core of
`colony/node.py`, together with theorems settling the frozen claims about it.

Conventions of the embedding:
* Python values flowing through ports are modelled by `Option α`
  (`none` models Python's `None`, the initial cached value).
* Python dicts keyed by strings are modelled by insertion-ordered
  association lists (`List (String × Option α)`), with assignment
  updating an existing key in place and appending new keys at the end,
  matching Python dict semantics.
* Exceptions raised by a work target or an observer are modelled with
  `Except String`; the message stands for the exception text.
* `colony/observer.py` and `colony/utils/function_info.py` are not part of
  the sources; the small pieces of them the core needs are modelled from
  the spec and marked as such in their doc comments.
-/

namespace Colony

/-! ## Python helpers -/

/-- Python `range(0, stop, step)` for `step ≥ 1`: the indices
`0, step, 2*step, …` below `stop`.  (Python raises `ValueError` for
`step = 0`; here the `step = 0` case is out of scope and returns `[]`.) -/
def pyRange (stop step : Nat) : List Nat :=
  List.range' 0 ((stop + step - 1) / step) step

/-- Python dict assignment `m[k] = x` on an insertion-ordered association
list: overwrite the value of an existing key in place, else append. -/
def dictSet (m : List (String × Option α)) (k : String) (x : Option α) :
    List (String × Option α) :=
  if m.any (fun p => p.1 = k) then
    m.map (fun p => if p.1 = k then (k, x) else p)
  else
    m ++ [(k, x)]

/-! ## Port layer

`BatchArgInputPort.chunks` (node.py lines 118–122):
```python
def chunks(self, payload):
    for i in range(0, len(payload), self.batch_size):
        yield payload[i:i + self.batch_size]
```
`payload[i:i+s]` is `(payload.drop i).take s`. -/

/-- `BatchArgInputPort.chunks`. -/
def chunks (batch_size : Nat) (payload : List α) : List (List α) :=
  (pyRange payload.length batch_size).map
    (fun i => (payload.drop i).take batch_size)

/-! ## Node state and input handling

`Node.handle_input` (node.py lines 379–392):
```python
def handle_input(self, data=None, idx=None, kwarg=None):
    if kwarg is not None:
        self.passive_input_values[kwarg] = data
        return
    if idx is not None:
        self.reactive_input_values[idx] = data
    try:
        self.worker.execute(*self.reactive_input_values, **self.passive_input_values)
    except Exception as e:
        ...log and swallow...
```
The `worker.execute` call is recorded as an `Invocation`; the downstream
effect of executing it is modelled separately by the worker layer.
`self.reactive_input_values[idx] = data` requires `idx` in range in Python
(`IndexError` otherwise); theorems about it assume the index is in range. -/

/-- The cached state of a `Node`: the reactive value vector, the passive
(keyword) value dict, and the node's current value. -/
structure NodeState (α : Type) where
  reactive_input_values : List (Option α)
  passive_input_values : List (String × Option α)
  value : Option α
  deriving Repr, DecidableEq

/-- One call `worker.execute(*args, **kwargs)` made by `handle_input`. -/
structure Invocation (α : Type) where
  args : List (Option α)
  kwargs : List (String × Option α)
  deriving Repr, DecidableEq

/-- `Node.handle_input`: returns the updated cached state and the list of
worker invocations performed (always `[]` or a singleton). -/
def handle_input (s : NodeState α) (data : Option α)
    (idx : Option Nat) (kwarg : Option String) :
    NodeState α × List (Invocation α) :=
  match kwarg with
  | some k =>
      ({ s with passive_input_values := dictSet s.passive_input_values k data }, [])
  | none =>
      let s' : NodeState α :=
        match idx with
        | some i => { s with reactive_input_values := s.reactive_input_values.set i data }
        | none => s
      (s', [⟨s'.reactive_input_values, s'.passive_input_values⟩])

/-- `Node.notify` (node.py lines 362–366): `data = None` bypasses the input
ports and calls `handle_input(data, None, None)`; otherwise the event is
routed through `reactive_input_ports[port_idx]`, which for the
default-constructed ports is `ArgInputPort(port_idx)` and hence calls
`handle_input(data, idx=port_idx)`. -/
def Node.notify (s : NodeState α) (data : Option α) (port_idx : Nat) :
    NodeState α × List (Invocation α) :=
  match data with
  | none => handle_input s none none none
  | some d => handle_input s (some d) (some port_idx) none

/-- `BatchArgInputPort.notify` (node.py lines 114–116) feeding a node: each
chunk is delivered through `handle_input(batch, idx=self.idx)` in order;
the invocations of all deliveries are concatenated in order. -/
def BatchArgInputPort.feed (batch_size : Nat) (idx : Nat)
    (data : List β) (s : NodeState (List β)) :
    NodeState (List β) × List (Invocation (List β)) :=
  (chunks batch_size data).foldl
    (fun acc b =>
      let r := handle_input acc.1 (some b) (some idx) none
      (r.1, acc.2 ++ r.2))
    (s, [])

/-! ## Observer fan-out and the synchronous worker

`SyncWorker.execute` (node.py lines 162–173) and `Worker._handle_result`
(lines 137–139):
```python
def execute(self, *args, **kwargs):
    try:
        if self.isStarted:
            result = self.target(*args, **kwargs)
            self._handle_result(result)
        else:
            raise Exception('SyncWorker.execute called, even though it is not started.')
    except Exception as e:
        msg = 'SyncWorker failed to execute: %s' % str(e)
        ...self.node.logger.error(msg); self.node.logger.error(exc)...

def _handle_result(self, result):
    self.node.set_value(result)
    self.node.output_port.notify(result)
```
-/

/-- Modelled from the spec: `Observable.notify_observers`
(`colony/observer.py` is not among the sources).  "notify(data)
synchronously invokes every registered subscriber's notify(data), in
registration order, on the caller's thread".  Each observer is a function
that may raise; per Python loop semantics an exception from one observer
propagates immediately and later observers are not invoked.  Returns the
indices of the observers successfully notified, and the first raised
exception if any. -/
def notify_observers (observers : List (Option α → Except String Unit))
    (data : Option α) : List Nat × Option String :=
  go observers 0
where
  /-- Walk the observers from index `i`. -/
  go : List (Option α → Except String Unit) → Nat → List Nat × Option String
    | [], _ => ([], none)
    | o :: rest, i =>
        match o data with
        | .ok _ =>
            let r := go rest (i + 1)
            (i :: r.1, r.2)
        | .error e => ([], some e)

/-- Outcome of one `SyncWorker.execute` call: the node's value afterwards,
the indices of output-port observers notified, and the error-log lines. -/
structure SyncExecOut (α : Type) where
  value : Option α
  delivered : List Nat
  logged : List String
  deriving Repr, DecidableEq

/-- The two `logger.error` lines of `SyncWorker.execute`'s `except` block:
the message and the formatted traceback. -/
def syncFailLogs (e : String) : List String :=
  ["SyncWorker failed to execute: " ++ e, "traceback: " ++ e]

/-- `SyncWorker.execute`, including `Worker._handle_result`.  The target
receives the positional args and keyword dict and may raise; the output
port's observers may raise during fan-out; both are caught by the
surrounding `try` and logged.  Note the value is set *before* the fan-out. -/
def SyncWorker.execute (isStarted : Bool)
    (target : List (Option α) → List (String × Option α) → Except String α)
    (observers : List (Option α → Except String Unit))
    (value : Option α) (args : List (Option α))
    (kwargs : List (String × Option α)) : SyncExecOut α :=
  if isStarted then
    match target args kwargs with
    | .error e => ⟨value, [], syncFailLogs e⟩
    | .ok result =>
        match notify_observers observers (some result) with
        | (d, none) => ⟨some result, d, []⟩
        | (d, some e) => ⟨some result, d, syncFailLogs e⟩
  else
    ⟨value, [], syncFailLogs "SyncWorker.execute called, even though it is not started."⟩

/-- One inbound event handled end to end by a node with a synchronous
worker: `Node.handle_input` updates the caches and performs its worker
invocations (zero or one), each of which runs `SyncWorker.execute`.
Returns the node state (value included), the indices of output-port
observers notified, and the error-log lines. -/
def nodeHandleInputSync (isStarted : Bool)
    (target : List (Option α) → List (String × Option α) → Except String α)
    (observers : List (Option α → Except String Unit))
    (s : NodeState α) (data : Option α)
    (idx : Option Nat) (kwarg : Option String) :
    NodeState α × List Nat × List String :=
  let r := handle_input s data idx kwarg
  r.2.foldl
    (fun acc inv =>
      let out := SyncWorker.execute isStarted target observers acc.1.value
        inv.args inv.kwargs
      ({ acc.1 with value := out.value },
        acc.2.1 ++ out.delivered, acc.2.2 ++ out.logged))
    (r.1, [], [])

/-! ## Node construction (`Node.__init__`, node.py lines 260–347)

Only the pieces the claims are about: sizing of the reactive ports from
the target's arity, the cached reactive value vector, the assertion on an
explicit port list, and the passive ports seeded from keyword defaults.
-/

/-- Modelled from the spec: `FunctionInfo` (`colony/utils/function_info.py`
is not among the sources).  "arity (excluding any instance parameter) sets
reactive-port count; keyword parameters with defaults become passive
ports seeded with those defaults": `num_args` is the number of positional
parameters (for a class target this is the arity of `execute`, including
`self`), and `kwargs` lists the keyword parameters with their defaults. -/
structure TargetInfo (α : Type) where
  num_args : Nat
  kwargs : List (String × Option α)
  deriving Repr, DecidableEq

/-- The `target_func` / `target_class` alternative of `Node.__init__`
(exactly one is supplied; supplying neither raises `ValueError`). -/
inductive TargetSpec (α : Type) where
  | func (info : TargetInfo α)
  | cls (info : TargetInfo α)
  deriving Repr, DecidableEq

/-- `num_reactive_input_ports` as computed by `Node.__init__`
(lines 282–288): the arity for a plain callable; the arity of
`execute` minus 1 (the `self` parameter) for a class target. -/
def numReactive : TargetSpec α → Nat
  | .func info => info.num_args
  | .cls info => info.num_args - 1

/-- The `reactive_input_ports` constructor argument: `None`, a single
`ArgInputPort`, or a list of ports.  A port is represented by its `idx`
field (possibly `None`). -/
inductive RIPsParam where
  | nonePorts
  | single (idx : Option Nat)
  | plist (idxs : List (Option Nat))
  deriving Repr, DecidableEq

/-- The parts of a constructed `Node` the construction claims are about. -/
structure NodeInitResult (α : Type) where
  reactive_port_idxs : List (Option Nat)
  reactive_input_values : List (Option α)
  passive_input_values : List (String × Option α)
  deriving Repr, DecidableEq

/-- `Node.__init__` (lines 282–335, the port/value sizing logic).
* explicit port list: `assert len(reactive_input_ports) == num_reactive_input_ports`
  aborts construction on mismatch (`Except.error`);
* a single explicit port gets `idx = 0`;
* otherwise `ArgInputPort(i)` for `i < num_reactive_input_ports`;
* `if default_reactive_input_values:` (Python truthiness — `None` and `[]`
  both fall to the else branch) the supplied list is taken *as is*,
  else `[None] * len(self.reactive_input_ports)`;
* each keyword parameter with a default seeds one passive port. -/
def nodeInit (target : TargetSpec α) (rips : RIPsParam)
    (default_reactive_input_values : Option (List (Option α))) :
    Except String (NodeInitResult α) :=
  let info := match target with
    | .func i => i
    | .cls i => i
  let num := numReactive target
  match rips with
  | .plist idxs =>
      if idxs.length = num then
        .ok ⟨idxs, initValues default_reactive_input_values idxs.length, info.kwargs⟩
      else
        .error "AssertionError"
  | .single _ =>
      .ok ⟨[some 0], initValues default_reactive_input_values 1, info.kwargs⟩
  | .nonePorts =>
      let idxs := (List.range num).map (fun i => some i)
      .ok ⟨idxs, initValues default_reactive_input_values idxs.length, info.kwargs⟩
where
  /-- Lines 308–311: the cached reactive value vector. -/
  initValues (dft : Option (List (Option α))) (numPorts : Nat) : List (Option α) :=
    match dft with
    | some ds => if ds.isEmpty then List.replicate numPorts none else ds
    | none => List.replicate numPorts none

/-! ## Graph shutdown (`Graph.stop`, node.py lines 47–56)

```python
def stop(self):
    self.logger.info(...)
    self.is_alive = False
    for node in self.nodes:
        if isinstance(node.worker, AsyncWorker):
            node.stop()
    for node in self.nodes:
        if isinstance(node.worker, SyncWorker):
            node.stop()
```
Each node is represented by its worker's kind; `Graph.stop` is modelled by
the ordered trace of the actions it performs.  `node.stop()` delegates to
`worker.stop()`, which for an `AsyncWorker` performs the full
poison-pill drain before returning, so each `stopNode _ .async` event
stands for the whole drain of that node. -/

/-- The two concrete worker kinds. -/
inductive WorkerKind where
  | async
  | sync
  deriving Repr, DecidableEq

/-- An action performed by `Graph.stop`, in order. -/
inductive StopEvent where
  | markNotAlive
  | stopNode (i : Nat) (k : WorkerKind)
  deriving Repr, DecidableEq

/-- The ordered action trace of `Graph.stop` on a graph whose node list
has the given worker kinds: mark not alive, then one pass stopping the
async-worker nodes in list order, then one pass stopping the sync-worker
nodes in list order. -/
def Graph.stopTrace (ws : List WorkerKind) : List StopEvent :=
  StopEvent.markNotAlive ::
    (((ws.enum.filter (fun p => p.2 = .async)).map
        (fun p => StopEvent.stopNode p.1 .async)) ++
     ((ws.enum.filter (fun p => p.2 = .sync)).map
        (fun p => StopEvent.stopNode p.1 .sync)))

/-! ## Async worker queue accounting (`join`, node.py lines 222–245)

Python's `Queue` counts unfinished tasks: `put` increments the count,
`task_done` decrements it, and `join()` blocks until it is zero.  One
iteration of `AsyncWorker._worker`'s loop after `get`:
```python
if isinstance(payload, PoisonPill):
    self.worker_queue.task_done()
    return
else:
    args, kwargs = payload
    try:
        result = target(*args, **kwargs)
    except Exception as e:
        ...logger.error twice...          # note: no task_done here
    else:
        self.result_queue.put(result)
        self.worker_queue.task_done()
```
-/

/-- One item dequeued from the work queue. -/
inductive WorkPayload (α : Type) where
  | witem (v : α)
  | pill
  deriving Repr, DecidableEq

/-- The queue bookkeeping a `_worker` iteration touches: unfinished-task
counts of the two queues, the results enqueued, and the error log. -/
structure AsyncQState (β : Type) where
  wq_unfinished : Nat
  rq_unfinished : Nat
  results : List β
  logs : List String
  deriving Repr, DecidableEq

/-- `AsyncWorker.execute` (lines 226–227): `put` one work item. -/
def AsyncWorker.executeAcct (st : AsyncQState β) : AsyncQState β :=
  { st with wq_unfinished := st.wq_unfinished + 1 }

/-- The body of `AsyncWorker._worker`'s loop after `get`, acting on the
queue bookkeeping (the dequeue itself does not change the unfinished
count; only `task_done` does). -/
def workerLoopBody (target : α → Except String β)
    (st : AsyncQState β) (payload : WorkPayload α) : AsyncQState β :=
  match payload with
  | .pill => { st with wq_unfinished := st.wq_unfinished - 1 }
  | .witem v =>
      match target v with
      | .error e =>
          { st with logs := st.logs ++
              ["AsyncWorker failed to execute target: " ++ e, "traceback: " ++ e] }
      | .ok r =>
          { st with
              results := st.results ++ [r]
              rq_unfinished := st.rq_unfinished + 1
              wq_unfinished := st.wq_unfinished - 1 }

/-- `AsyncWorker.join` (lines 222–224) returns exactly when both queues
report all enqueued items processed. -/
def AsyncWorker.joinReturns (st : AsyncQState β) : Prop :=
  st.wq_unfinished = 0 ∧ st.rq_unfinished = 0

instance (st : AsyncQState β) : Decidable (AsyncWorker.joinReturns st) := by
  unfold AsyncWorker.joinReturns
  infer_instance

/-! ## Async worker drain: a small-step interleaving model
(`AsyncWorker`, node.py lines 184–256)

The N execution workers, the single result-draining thread and the thread
running `stop()` are modelled by a nondeterministically scheduled
transition relation.  Queues are FIFO lists (`get` at the head, `put` at
the tail), matching `queue.Queue`.

* An execution worker (`_worker`, lines 229–245) is `widle` between
  iterations, `wbusy v` while its target runs on `v`, and `wdead` after
  dequeuing a `PoisonPill`.  Dequeuing an item and finishing it (enqueuing
  the result) are separate steps, so a result may be in flight inside a
  worker while other threads run.
* The result thread (`_result_handler`, lines 247–256) is `ridle`, or
  `rbusy r` between dequeuing `r` and completing `_handle_result(r)`
  (set node value + output-port fan-out, recorded in `delivered`),
  or `rdead` after dequeuing the `PoisonPill`.
* `stop()` (lines 209–220) is a thread of its own: it puts one pill per
  worker onto the work queue (one `put` per step), then blocks joining the
  workers; once all are dead it puts a single pill onto the result queue;
  once the result thread is dead it returns (`stopped`).

The scenario of the claim — K invocations submitted, then `stop()` —
is the initial state: all K items already on the work queue and the
stop thread about to send its pills; worker steps interleave freely with
the stop thread's puts, which also covers work processed before `stop()`
is called.  The claim assumes no target raises, so the target is a total
function `f`. -/

/-- An entry of the work queue. -/
inductive WQItem (α : Type) where
  | witem (v : α)
  | pill
  deriving Repr, DecidableEq

/-- An entry of the result queue. -/
inductive RQItem (β : Type) where
  | ritem (r : β)
  | pill
  deriving Repr, DecidableEq

/-- The state of one execution worker thread. -/
inductive WStatus (α : Type) where
  | widle
  | wbusy (v : α)
  | wdead
  deriving Repr, DecidableEq

/-- The state of the result-draining thread. -/
inductive RStatus (β : Type) where
  | ridle
  | rbusy (r : β)
  | rdead
  deriving Repr, DecidableEq

/-- The program counter of the thread executing `AsyncWorker.stop()`:
`sending k` with `k` pills still to put on the work queue, then waiting
for the worker joins, then waiting for the result-thread join, then
returned. -/
inductive StopPhase where
  | sending (k : Nat)
  | waitingWorkers
  | waitingResult
  | stopped
  deriving Repr, DecidableEq

/-- The global state: both queues, every thread, the sequence of results
handed to `_handle_result` (node value set + output-port fan-out), the
node's value, and the stop thread's position. -/
structure AWState (α β : Type) where
  wq : List (WQItem α)
  rq : List (RQItem β)
  workers : List (WStatus α)
  rstat : RStatus β
  delivered : List β
  value : Option β
  phase : StopPhase
  deriving Repr, DecidableEq

/-- One scheduler-chosen step of any thread of a started `AsyncWorker`
whose target is the total function `f`. -/
inductive AStep (f : α → β) : AWState α β → AWState α β → Prop where
  /-- A worker's `worker_queue.get()` returns a work item. -/
  | takeItem (s : AWState α β) (i : Nat) (v : α) (rest : List (WQItem α))
      (hw : s.workers.get? i = some .widle) (hq : s.wq = .witem v :: rest) :
      AStep f s { s with wq := rest, workers := s.workers.set i (.wbusy v) }
  /-- A worker's `worker_queue.get()` returns the poison pill: it
  acknowledges and terminates. -/
  | takePill (s : AWState α β) (i : Nat) (rest : List (WQItem α))
      (hw : s.workers.get? i = some .widle) (hq : s.wq = .pill :: rest) :
      AStep f s { s with wq := rest, workers := s.workers.set i .wdead }
  /-- A busy worker's target returns and it enqueues the raw result. -/
  | finishItem (s : AWState α β) (i : Nat) (v : α)
      (hw : s.workers.get? i = some (.wbusy v)) :
      AStep f s { s with rq := s.rq ++ [.ritem (f v)],
                         workers := s.workers.set i .widle }
  /-- The result thread's `result_queue.get()` returns a result. -/
  | rtakeItem (s : AWState α β) (r : β) (rest : List (RQItem β))
      (hr : s.rstat = .ridle) (hq : s.rq = .ritem r :: rest) :
      AStep f s { s with rq := rest, rstat := .rbusy r }
  /-- The result thread's `result_queue.get()` returns the poison pill:
  it acknowledges and terminates. -/
  | rtakePill (s : AWState α β) (rest : List (RQItem β))
      (hr : s.rstat = .ridle) (hq : s.rq = .pill :: rest) :
      AStep f s { s with rq := rest, rstat := .rdead }
  /-- The result thread completes `_handle_result(r)`: node value set and
  output-port fan-out performed. -/
  | rfinish (s : AWState α β) (r : β) (hr : s.rstat = .rbusy r) :
      AStep f s { s with delivered := s.delivered ++ [r],
                         value := some r, rstat := .ridle }
  /-- `stop()` puts one of its remaining poison pills on the work queue. -/
  | stopSendPill (s : AWState α β) (k : Nat) (hp : s.phase = .sending (k + 1)) :
      AStep f s { s with wq := s.wq ++ [.pill], phase := .sending k }
  /-- `stop()` has put all its work-queue pills and moves on to joining
  the worker threads. -/
  | stopDoneSending (s : AWState α β) (hp : s.phase = .sending 0) :
      AStep f s { s with phase := .waitingWorkers }
  /-- Every worker thread has terminated, so every `thread.join()`
  returns; `stop()` puts the single pill on the result queue. -/
  | stopJoinedWorkers (s : AWState α β) (hp : s.phase = .waitingWorkers)
      (hdead : ∀ w ∈ s.workers, w = .wdead) :
      AStep f s { s with rq := s.rq ++ [.pill], phase := .waitingResult }
  /-- The result thread has terminated, so `result_thread.join()` returns
  and `stop()` returns. -/
  | stopReturn (s : AWState α β) (hp : s.phase = .waitingResult)
      (hr : s.rstat = .rdead) :
      AStep f s { s with phase := .stopped }

/-- The initial state of the claim's scenario: the K submitted items on
the work queue in submission order, `n` idle workers, an idle result
thread, and `stop()` called (about to send its `n` pills). -/
def AWInit (items : List α) (n : Nat) : AWState α β :=
  { wq := items.map .witem
    rq := []
    workers := List.replicate n .widle
    rstat := .ridle
    delivered := []
    value := none
    phase := .sending n }

/-- States reachable from the claim's initial scenario under any
interleaving. -/
def AWReachable (f : α → β) (items : List α) (n : Nat) (s : AWState α β) : Prop :=
  Relation.ReflTransGen (AStep f) (AWInit items n) s

/-! ### The drain invariant -/

/-- Whether a worker thread has terminated. -/
def isDead : WStatus α → Bool
  | .wdead => true
  | _ => false

/-- The value a worker thread currently holds, if any. -/
def busyOf : WStatus α → List α
  | .wbusy v => [v]
  | _ => []

/-- The number of terminated workers. -/
def deadCount (ws : List (WStatus α)) : Nat :=
  ws.countP isDead

/-- The values currently held by busy workers. -/
def busyVals (ws : List (WStatus α)) : List α :=
  ws.flatMap busyOf

/-- The result held by the result thread, as a multiset. -/
def heldMS : RStatus β → Multiset β
  | .rbusy r => {r}
  | _ => 0

/-- The number of work-queue pills `stop()` has put so far. -/
def pillsPut (n : Nat) : StopPhase → Nat
  | .sending k => n - k
  | _ => n

/-- The stop thread has put its result-queue pill. -/
def latePhase (p : StopPhase) : Prop :=
  p = .waitingResult ∨ p = .stopped

/-- The inductive invariant of the drain protocol.  `pend` is the list of
work items still on the work queue (in order), `pw` the work-queue pills
behind them, `res` the results on the result queue (in order). -/
def AWInv (f : α → β) (items : List α) (n : Nat) (s : AWState α β) : Prop :=
  ∃ (pend : List α) (pw : Nat) (res : List β),
    s.workers.length = n ∧
    s.wq = pend.map .witem ++ List.replicate pw .pill ∧
    (∀ k, s.phase = .sending k → k ≤ n) ∧
    pw + deadCount s.workers = pillsPut n s.phase ∧
    (0 < deadCount s.workers → pend = []) ∧
    ((pend.map f : Multiset β) + ((busyVals s.workers).map f : Multiset β) +
        (res : Multiset β) + heldMS s.rstat + (s.delivered : Multiset β) =
      (items.map f : Multiset β)) ∧
    (¬ latePhase s.phase → s.rq = res.map .ritem ∧ s.rstat ≠ .rdead) ∧
    (latePhase s.phase → s.rstat ≠ .rdead → s.rq = res.map .ritem ++ [.pill]) ∧
    (s.rstat = .rdead → s.rq = [] ∧ res = []) ∧
    (latePhase s.phase → ∀ w ∈ s.workers, w = .wdead) ∧
    (s.phase = .stopped → s.rstat = .rdead)

/-! ### List bookkeeping lemmas -/

lemma countP_set_eq (p : σ → Bool) (ws : List σ) (i : Nat) (a b : σ)
    (h : ws.get? i = some a) :
    (ws.set i b).countP p + (if p a then 1 else 0)
      = ws.countP p + (if p b then 1 else 0) := by
  induction ws generalizing i with
  | nil => simp at h
  | cons w t ih =>
    cases i with
    | zero =>
      simp only [List.get?] at h
      injection h with h
      subst h
      simp only [List.set, List.countP_cons]
      omega
    | succ j =>
      simp only [List.get?] at h
      simp only [List.set, List.countP_cons]
      have := ih j h
      omega

lemma flatMap_set_ms (g : σ → List γ) (ws : List σ) (i : Nat) (a b : σ)
    (h : ws.get? i = some a) :
    ((ws.set i b).flatMap g : Multiset γ) + (g a : Multiset γ)
      = (ws.flatMap g : Multiset γ) + (g b : Multiset γ) := by
  induction ws generalizing i with
  | nil => simp at h
  | cons w t ih =>
    cases i with
    | zero =>
      simp only [List.get?] at h
      injection h with h
      subst h
      simp only [List.set, List.flatMap_cons, ← Multiset.coe_add]
      abel
    | succ j =>
      simp only [List.get?] at h
      simp only [List.set, List.flatMap_cons, ← Multiset.coe_add]
      have hih := ih j h
      calc (g w : Multiset γ) + ((t.set j b).flatMap g : Multiset γ) + (g a : Multiset γ)
          = (g w : Multiset γ) + (((t.set j b).flatMap g : Multiset γ) + (g a : Multiset γ)) := by
            abel
        _ = (g w : Multiset γ) + ((t.flatMap g : Multiset γ) + (g b : Multiset γ)) := by
            rw [hih]
        _ = (g w : Multiset γ) + (t.flatMap g : Multiset γ) + (g b : Multiset γ) := by
            abel

lemma wq_head_witem {pend : List α} {pw : Nat} {v : α} {rest : List (WQItem α)}
    (h : pend.map WQItem.witem ++ List.replicate pw WQItem.pill
          = WQItem.witem v :: rest) :
    ∃ pend', pend = v :: pend' ∧
      rest = pend'.map WQItem.witem ++ List.replicate pw WQItem.pill := by
  cases pend with
  | nil =>
    cases pw with
    | zero => simp at h
    | succ q => simp [List.replicate_succ] at h
  | cons x t =>
    simp only [List.map_cons, List.cons_append, List.cons.injEq,
      WQItem.witem.injEq] at h
    exact ⟨t, by rw [h.1], h.2.symm⟩

lemma wq_head_pill {pend : List α} {pw : Nat} {rest : List (WQItem α)}
    (h : pend.map WQItem.witem ++ List.replicate pw WQItem.pill
          = WQItem.pill :: rest) :
    pend = [] ∧ ∃ pw', pw = pw' + 1 ∧ rest = List.replicate pw' WQItem.pill := by
  cases pend with
  | nil =>
    cases pw with
    | zero => simp at h
    | succ q =>
      refine ⟨rfl, q, rfl, ?_⟩
      simpa [List.replicate_succ] using h.symm
  | cons x t => simp at h

lemma rq_head_ritem_nil {res : List β} {r : β} {rest : List (RQItem β)}
    (h : res.map RQItem.ritem = RQItem.ritem r :: rest) :
    ∃ res', res = r :: res' ∧ rest = res'.map RQItem.ritem := by
  cases res with
  | nil => simp at h
  | cons x t =>
    simp only [List.map_cons, List.cons.injEq, RQItem.ritem.injEq] at h
    exact ⟨t, by rw [h.1], h.2.symm⟩

lemma rq_head_ritem_pill {res : List β} {r : β} {rest : List (RQItem β)}
    (h : res.map RQItem.ritem ++ [RQItem.pill] = RQItem.ritem r :: rest) :
    ∃ res', res = r :: res' ∧ rest = res'.map RQItem.ritem ++ [RQItem.pill] := by
  cases res with
  | nil => simp at h
  | cons x t =>
    simp only [List.map_cons, List.cons_append, List.cons.injEq,
      RQItem.ritem.injEq] at h
    exact ⟨t, by rw [h.1], h.2.symm⟩

lemma rq_map_no_pill_head {res : List β} {rest : List (RQItem β)}
    (h : res.map RQItem.ritem = RQItem.pill :: rest) : False := by
  cases res with
  | nil => simp at h
  | cons x t => simp at h

lemma rq_pill_head {res : List β} {rest : List (RQItem β)}
    (h : res.map RQItem.ritem ++ [RQItem.pill] = RQItem.pill :: rest) :
    res = [] ∧ rest = [] := by
  cases res with
  | nil =>
    refine ⟨rfl, ?_⟩
    simp only [List.map_nil, List.nil_append] at h
    injection h with _ h2
    exact h2.symm
  | cons x t => simp at h

lemma busyVals_all_dead {ws : List (WStatus α)}
    (h : ∀ w ∈ ws, w = WStatus.wdead) : busyVals ws = [] := by
  induction ws with
  | nil => rfl
  | cons w t ih =>
    have hw := h w (by simp)
    subst hw
    simp only [busyVals, List.flatMap_cons, busyOf, List.nil_append]
    exact ih (fun x hx => h x (by simp [hx]))

lemma deadCount_all_dead {ws : List (WStatus α)}
    (h : ∀ w ∈ ws, w = WStatus.wdead) : deadCount ws = ws.length := by
  refine List.countP_eq_length.mpr (fun a ha => ?_)
  rw [h a ha]
  rfl

lemma busyVals_replicate_idle (n : Nat) :
    busyVals (List.replicate n (WStatus.widle : WStatus α)) = [] := by
  induction n with
  | zero => rfl
  | succ m ih =>
    simp only [List.replicate_succ, busyVals, List.flatMap_cons, busyOf,
      List.nil_append]
    exact ih

lemma deadCount_replicate_idle (n : Nat) :
    deadCount (List.replicate n (WStatus.widle : WStatus α)) = 0 := by
  refine List.countP_eq_zero.mpr (fun a ha => ?_)
  rw [List.eq_of_mem_replicate ha]
  simp [isDead]

/-- `(v :: l).map f` as a multiset: `{f v}` plus the rest. -/
lemma coe_map_cons (f : α → β) (v : α) (l : List α) :
    ((v :: l).map f : Multiset β) = {f v} + ((l.map f) : Multiset β) := by
  simp

/-- `deadCount` across a single `List.set`. -/
lemma deadCount_set (ws : List (WStatus α)) (i : Nat) (a b : WStatus α)
    (h : ws.get? i = some a) :
    deadCount (ws.set i b) + (if isDead a then 1 else 0)
      = deadCount ws + (if isDead b then 1 else 0) :=
  countP_set_eq isDead ws i a b h

/-- `busyVals`, as a multiset, across a single `List.set`. -/
lemma busyVals_set (ws : List (WStatus α)) (i : Nat) (a b : WStatus α)
    (h : ws.get? i = some a) :
    (busyVals (ws.set i b) : Multiset α) + (busyOf a : Multiset α)
      = (busyVals ws : Multiset α) + (busyOf b : Multiset α) :=
  flatMap_set_ms busyOf ws i a b h

/-- Every element of `ws.set i b` is an element of `ws` or is `b`. -/
lemma mem_of_mem_set {ws : List σ} {i : Nat} {b x : σ}
    (h : x ∈ ws.set i b) : x ∈ ws ∨ x = b := by
  induction ws generalizing i with
  | nil => simp [List.set] at h
  | cons w t ih =>
    cases i with
    | zero =>
      simp only [List.set, List.mem_cons] at h
      rcases h with h | h
      · exact Or.inr h
      · exact Or.inl (List.mem_cons_of_mem _ h)
    | succ j =>
      simp only [List.set, List.mem_cons] at h
      rcases h with h | h
      · exact Or.inl (h ▸ List.mem_cons_self _ _)
      · rcases ih h with h' | h'
        · exact Or.inl (List.mem_cons_of_mem _ h')
        · exact Or.inr h'

/-- The invariant holds in the initial state. -/
lemma AWInv_init (f : α → β) (items : List α) (n : Nat) :
    AWInv f items n (AWInit items n) := by
  refine ⟨items, 0, [], ?_, ?_, ?_, ?_, ?_, ?_, ?_, ?_, ?_, ?_, ?_⟩
  · simp [AWInit]
  · simp [AWInit]
  · intro k hk
    simp only [AWInit] at hk
    injection hk with hk
    omega
  · simp [AWInit, deadCount_replicate_idle, pillsPut]
  · intro hd
    rw [AWInit] at hd
    simp [deadCount_replicate_idle] at hd
  · simp [AWInit, busyVals_replicate_idle, heldMS]
  · intro _
    exact ⟨rfl, by simp [AWInit]⟩
  · intro hlate
    rcases hlate with h | h <;> simp [AWInit] at h
  · intro h
    simp [AWInit] at h
  · intro hlate
    rcases hlate with h | h <;> simp [AWInit] at h
  · intro h
    simp [AWInit] at h

/-- `r :: l` as a multiset: `{r}` plus the rest. -/
lemma coe_cons_ms (r : β) (l : List β) :
    ((r :: l : List β) : Multiset β) = {r} + (l : Multiset β) := by
  rw [← Multiset.cons_coe, Multiset.singleton_add]

/-- `l ++ [r]` as a multiset: the rest plus `{r}`. -/
lemma coe_append_singleton_ms (r : β) (l : List β) :
    ((l ++ [r] : List β) : Multiset β) = (l : Multiset β) + {r} := by
  rw [← Multiset.coe_add, Multiset.coe_singleton]

/-- Every step of the async worker preserves the drain invariant. -/
lemma AWInv_step {f : α → β} {items : List α} {n : Nat} {s s' : AWState α β}
    (hs : AWInv f items n s) (hstep : AStep f s s') : AWInv f items n s' := by
  obtain ⟨pend, pw, res, h1, h2, h3, h4, h5, h6, h7, h8, h9, h10, h11⟩ := hs
  cases hstep with
  | takeItem i v rest hw hq =>
    rw [h2] at hq
    obtain ⟨pend', hpend, hrest⟩ := wq_head_witem hq
    subst hpend
    have hdc : deadCount (s.workers.set i (.wbusy v)) = deadCount s.workers := by
      have := deadCount_set s.workers i .widle (.wbusy v) hw
      simpa [isDead] using this
    have hbv : (busyVals (s.workers.set i (.wbusy v)) : Multiset α)
        = (busyVals s.workers : Multiset α) + {v} := by
      have := busyVals_set s.workers i .widle (.wbusy v) hw
      simpa [busyOf] using this
    have hbvf : ((busyVals (s.workers.set i (.wbusy v))).map f : Multiset β)
        = ((busyVals s.workers).map f : Multiset β) + {f v} := by
      have := congrArg (Multiset.map f) hbv
      simpa using this
    refine ⟨pend', pw, res, ?_, ?_, h3, ?_, ?_, ?_, h7, h8, h9, ?_, h11⟩
    · dsimp only
      rw [List.length_set]
      exact h1
    · exact hrest
    · dsimp only
      rw [hdc]
      exact h4
    · dsimp only
      intro hd
      rw [hdc] at hd
      exact absurd (h5 hd) (List.cons_ne_nil v pend')
    · dsimp only
      rw [← h6, hbvf, coe_map_cons]
      abel
    · dsimp only
      intro hl
      exfalso
      have := h10 hl _ (List.get?_mem hw)
      simp at this
  | takePill i rest hw hq =>
    rw [h2] at hq
    obtain ⟨hpend, pw', hpw, hrest⟩ := wq_head_pill hq
    subst hpend
    subst hpw
    have hdc : deadCount (s.workers.set i .wdead) = deadCount s.workers + 1 := by
      have := deadCount_set s.workers i .widle .wdead hw
      simpa [isDead] using this
    have hbvf : ((busyVals (s.workers.set i .wdead)).map f : Multiset β)
        = ((busyVals s.workers).map f : Multiset β) := by
      have hbv : (busyVals (s.workers.set i .wdead) : Multiset α)
          = (busyVals s.workers : Multiset α) := by
        have := busyVals_set s.workers i .widle .wdead hw
        simpa [busyOf] using this
      have := congrArg (Multiset.map f) hbv
      simpa using this
    refine ⟨[], pw', res, ?_, ?_, h3, ?_, ?_, ?_, h7, h8, h9, ?_, h11⟩
    · dsimp only
      rw [List.length_set]
      exact h1
    · dsimp only
      rw [hrest]
      simp
    · dsimp only
      rw [hdc]
      omega
    · intro _
      rfl
    · dsimp only
      rw [← h6, hbvf]
    · dsimp only
      intro hl w hm
      rcases mem_of_mem_set hm with h' | h'
      · exact h10 hl w h'
      · exact h'
  | finishItem i v hw =>
    have hnl : ¬ latePhase s.phase := by
      intro hl
      have := h10 hl _ (List.get?_mem hw)
      simp at this
    have hdc : deadCount (s.workers.set i .widle) = deadCount s.workers := by
      have := deadCount_set s.workers i (.wbusy v) .widle hw
      simpa [isDead] using this
    have hbvf : ((busyVals (s.workers.set i .widle)).map f : Multiset β) + {f v}
        = ((busyVals s.workers).map f : Multiset β) := by
      have hbv : (busyVals (s.workers.set i .widle) : Multiset α) + {v}
          = (busyVals s.workers : Multiset α) := by
        have := busyVals_set s.workers i (.wbusy v) .widle hw
        simpa [busyOf] using this
      have := congrArg (Multiset.map f) hbv
      simpa using this
    refine ⟨pend, pw, res ++ [f v], ?_, h2, h3, ?_, ?_, ?_, ?_, ?_, ?_, ?_, h11⟩
    · dsimp only
      rw [List.length_set]
      exact h1
    · dsimp only
      rw [hdc]
      exact h4
    · dsimp only
      intro hd
      rw [hdc] at hd
      exact h5 hd
    · dsimp only
      rw [← h6, coe_append_singleton_ms, ← hbvf]
      abel
    · intro _
      refine ⟨?_, (h7 hnl).2⟩
      dsimp only
      rw [(h7 hnl).1]
      simp
    · intro hl
      exact absurd hl hnl
    · intro hd
      exact absurd hd (h7 hnl).2
    · intro hl
      exact absurd hl hnl
  | rtakeItem r rest hr hq =>
    have hprojrq : s.rq = RQItem.ritem r :: rest := hq
    by_cases hl : latePhase s.phase
    · have hrq := h8 hl (by rw [hr]; simp)
      rw [hrq] at hprojrq
      obtain ⟨res', hres, hrest⟩ := rq_head_ritem_pill hprojrq
      subst hres
      refine ⟨pend, pw, res', h1, h2, h3, h4, h5, ?_, ?_, ?_, ?_, h10, ?_⟩
      · dsimp only
        rw [hr] at h6
        rw [← h6, coe_cons_ms]
        simp only [heldMS]
        abel
      · intro hnl
        exact absurd hl hnl
      · intro _ _
        exact hrest
      · intro hd
        simp at hd
      · intro hstop
        exfalso
        have := h11 hstop
        rw [hr] at this
        simp at this
    · have hrq := (h7 hl).1
      rw [hrq] at hprojrq
      obtain ⟨res', hres, hrest⟩ := rq_head_ritem_nil hprojrq
      subst hres
      refine ⟨pend, pw, res', h1, h2, h3, h4, h5, ?_, ?_, ?_, ?_, h10, ?_⟩
      · dsimp only
        rw [hr] at h6
        rw [← h6, coe_cons_ms]
        simp only [heldMS]
        abel
      · intro _
        exact ⟨hrest, by simp⟩
      · intro hlate
        exact absurd hlate hl
      · intro hd
        simp at hd
      · intro hstop
        exfalso
        have := h11 hstop
        rw [hr] at this
        simp at this
  | rtakePill rest hr hq =>
    have hprojrq : s.rq = RQItem.pill :: rest := hq
    by_cases hl : latePhase s.phase
    · have hrq := h8 hl (by rw [hr]; simp)
      rw [hrq] at hprojrq
      obtain ⟨hres, hrest⟩ := rq_pill_head hprojrq
      subst hres
      refine ⟨pend, pw, [], h1, h2, h3, h4, h5, ?_, ?_, ?_, ?_, h10, ?_⟩
      · dsimp only
        rw [hr] at h6
        simpa [heldMS] using h6
      · intro hnl
        exact absurd hl hnl
      · intro _ hd
        exact absurd rfl hd
      · intro _
        exact ⟨hrest, rfl⟩
      · intro _
        rfl
    · exfalso
      have hrq := (h7 hl).1
      rw [hrq] at hprojrq
      exact rq_map_no_pill_head hprojrq
  | rfinish r hr =>
    refine ⟨pend, pw, res, h1, h2, h3, h4, h5, ?_, ?_, ?_, ?_, h10, ?_⟩
    · dsimp only
      rw [hr] at h6
      rw [← h6, coe_append_singleton_ms]
      simp only [heldMS]
      abel
    · intro hnl
      exact ⟨(h7 hnl).1, by simp⟩
    · intro hl _
      exact h8 hl (by rw [hr]; simp)
    · intro hd
      simp at hd
    · intro hstop
      exfalso
      have := h11 hstop
      rw [hr] at this
      simp at this
  | stopSendPill k hp =>
    have hnl : ¬ latePhase s.phase := by
      simp [latePhase, hp]
    refine ⟨pend, pw + 1, res, h1, ?_, ?_, ?_, h5, h6, ?_, ?_, h9, ?_, ?_⟩
    · dsimp only
      rw [h2, List.append_assoc, ← List.replicate_succ']
    · intro k' hk'
      dsimp only at hk'
      injection hk' with hkk
      have := h3 (k + 1) hp
      omega
    · dsimp only
      rw [hp] at h4
      simp only [pillsPut] at h4 ⊢
      have := h3 (k + 1) hp
      omega
    · intro _
      exact h7 hnl
    · intro hlate
      rcases hlate with h | h <;> simp at h
    · intro hlate
      rcases hlate with h | h <;> simp at h
    · intro h
      simp at h
  | stopDoneSending hp =>
    refine ⟨pend, pw, res, h1, h2, ?_, ?_, h5, h6, ?_, ?_, h9, ?_, ?_⟩
    · intro k hk
      simp at hk
    · dsimp only
      rw [hp] at h4
      simpa [pillsPut] using h4
    · intro _
      exact h7 (by simp [latePhase, hp])
    · intro hlate
      rcases hlate with h | h <;> simp at h
    · intro hlate
      rcases hlate with h | h <;> simp at h
    · intro h
      simp at h
  | stopJoinedWorkers hp hdead =>
    have hnl : ¬ latePhase s.phase := by
      simp [latePhase, hp]
    obtain ⟨hrq, hnd⟩ := h7 hnl
    refine ⟨pend, pw, res, h1, h2, ?_, ?_, h5, h6, ?_, ?_, ?_, ?_, ?_⟩
    · intro k hk
      simp at hk
    · dsimp only
      rw [hp] at h4
      simpa [pillsPut] using h4
    · intro h
      exact absurd (Or.inl rfl) h
    · intro _ _
      dsimp only
      rw [hrq]
    · intro h
      exact absurd h hnd
    · intro _
      exact hdead
    · intro h
      simp at h
  | stopReturn hp hr =>
    obtain ⟨hrq, hres⟩ := h9 hr
    refine ⟨pend, pw, res, h1, h2, ?_, ?_, h5, h6, ?_, ?_, ?_, ?_, ?_⟩
    · intro k hk
      simp at hk
    · dsimp only
      rw [hp] at h4
      simpa [pillsPut] using h4
    · intro h
      exact absurd (Or.inr rfl) h
    · intro _ h
      exact absurd hr h
    · intro _
      exact ⟨hrq, hres⟩
    · intro _
      exact h10 (Or.inl hp)
    · intro _
      exact hr

/-- The drain invariant holds in every reachable state. -/
lemma AWInv_reachable {f : α → β} {items : List α} {n : Nat} {s : AWState α β}
    (h : AWReachable f items n s) : AWInv f items n s := by
  induction h with
  | refl => exact AWInv_init f items n
  | tail _ hstep ih => exact AWInv_step ih hstep

/-! ## Claim theorems -/

/-- **C1.**  For every started asynchronous worker, `stop()` first enqueues
one poison pill per execution worker onto the work queue, waits for every
execution worker to terminate, and only then enqueues a single poison pill
onto the result queue and waits for the result-draining worker to
terminate (this protocol is the step relation `AStep`); consequently, for
every set of K submitted invocations none of whose targets raised
(the target is the total function `f`), in every reachable state in which
`stop()` has returned, all K results have been delivered to the output
port (`_handle_result`: value set and fan-out performed, recorded in
`delivered`) — the delivered results are exactly the images of the K
submitted payloads — and both queues are empty. -/
theorem asyncWorker_stop_drains_all_results (f : α → β) (items : List α)
    (n : Nat) (hn : 1 ≤ n) (s : AWState α β)
    (hreach : AWReachable f items n s) (hstop : s.phase = .stopped) :
    s.delivered.Perm (items.map f) ∧ s.wq = [] ∧ s.rq = [] := by
  obtain ⟨pend, pw, res, h1, h2, h3, h4, h5, h6, h7, h8, h9, h10, h11⟩ :=
    AWInv_reachable hreach
  have hlate : latePhase s.phase := Or.inr hstop
  have hrdead := h11 hstop
  obtain ⟨hrq, hres⟩ := h9 hrdead
  have hdead := h10 hlate
  have hdcn : deadCount s.workers = n := by
    rw [deadCount_all_dead hdead, h1]
  have hpend : pend = [] := h5 (by omega)
  have hpw : pw = 0 := by
    rw [hstop] at h4
    simp only [pillsPut] at h4
    omega
  refine ⟨?_, ?_, hrq⟩
  · rw [hpend, hres, hrdead, busyVals_all_dead hdead] at h6
    simp only [List.map_nil, Multiset.coe_nil, heldMS, zero_add, add_zero] at h6
    exact Multiset.coe_eq_coe.mp h6
  · rw [h2, hpend, hpw]
    simp

/-- Witness for C1: a complete concrete run with one worker and one
submitted payload `5` under target `(· + 1)`, scheduled start to finish;
the drained state has delivered exactly `[6]` and empty queues. -/
theorem asyncWorker_stop_drains_all_results_witness :
    (1 ≤ 1) ∧
    (⟨[], [], [WStatus.wdead], RStatus.rdead, [6], some 6,
        StopPhase.stopped⟩ : AWState Nat Nat).delivered.Perm
      ([5].map (fun v => v + 1)) := by
  refine ⟨by decide, (asyncWorker_stop_drains_all_results (fun v => v + 1)
    [5] 1 (by decide) _ ?_ rfl).1⟩
  apply Relation.ReflTransGen.head (AStep.takeItem (AWInit [5] 1) 0 5 [] (by rfl) (by rfl))
  apply Relation.ReflTransGen.head (AStep.finishItem _ 0 5 (by rfl))
  apply Relation.ReflTransGen.head (AStep.stopSendPill _ 0 (by rfl))
  apply Relation.ReflTransGen.head (AStep.stopDoneSending _ (by rfl))
  apply Relation.ReflTransGen.head (AStep.takePill _ 0 [] (by rfl) (by rfl))
  apply Relation.ReflTransGen.head (AStep.stopJoinedWorkers _ (by rfl) (by decide))
  apply Relation.ReflTransGen.head (AStep.rtakeItem _ 6 [RQItem.pill] (by rfl) (by rfl))
  apply Relation.ReflTransGen.head (AStep.rfinish _ 6 (by rfl))
  apply Relation.ReflTransGen.head (AStep.rtakePill _ [] (by rfl) (by rfl))
  apply Relation.ReflTransGen.head (AStep.stopReturn _ (by rfl) (by rfl))
  exact Relation.ReflTransGen.refl

/-! ### Chunking lemmas (`BatchArgInputPort.chunks`) -/

lemma chunks_nil (s : Nat) : chunks s ([] : List γ) = [] := by
  have h : (List.length ([] : List γ) + s - 1) / s = 0 := by
    cases s with
    | zero => simp
    | succ t => exact Nat.div_eq_of_lt (by simp)
  unfold chunks pyRange
  rw [h]
  rfl

lemma chunks_cons (s : Nat) (hs : 1 ≤ s) (p : List γ) (hp : p ≠ []) :
    chunks s p = p.take s :: chunks s (p.drop s) := by
  have hL : 1 ≤ p.length := List.length_pos.mpr hp
  unfold chunks pyRange
  have hm : (p.length + s - 1) / s = (p.length - 1) / s + 1 := by
    have h1 : p.length + s - 1 = (p.length - 1) + s := by omega
    rw [h1, Nat.add_div_right _ (by omega)]
  have hm' : ((p.drop s).length + s - 1) / s = (p.length - 1) / s := by
    rw [List.length_drop]
    rcases le_or_lt p.length s with h | h
    · have h0 : p.length - s = 0 := by omega
      rw [h0, Nat.div_eq_of_lt (by omega), Nat.div_eq_of_lt (by omega)]
    · have h1 : p.length - s + s - 1 = p.length - 1 := by omega
      rw [h1]
  rw [hm, hm', List.range'_succ, List.map_cons, List.drop_zero]
  congr 1
  have hshift : List.range' (0 + s) ((p.length - 1) / s) s
      = (List.range' 0 ((p.length - 1) / s) s).map (s + ·) := by
    rw [List.map_add_range', Nat.add_zero, Nat.zero_add]
  rw [hshift, List.map_map]
  refine List.map_congr_left (fun i _ => ?_)
  simp [Function.comp_apply, List.drop_drop, Nat.add_comm]

lemma chunks_flatten (s : Nat) (hs : 1 ≤ s) (p : List γ) :
    (chunks s p).flatten = p := by
  by_cases hp : p = []
  · subst hp
    rw [chunks_nil]
    rfl
  · rw [chunks_cons s hs p hp]
    rw [List.flatten_cons, chunks_flatten s hs (p.drop s)]
    exact List.take_append_drop s p
termination_by p.length
decreasing_by
  have := List.length_pos.mpr hp
  simp only [List.length_drop]
  omega

lemma chunks_length (s : Nat) (p : List γ) :
    (chunks s p).length = (p.length + s - 1) / s := by
  simp [chunks, pyRange]

lemma chunks_mem (s : Nat) (hs : 1 ≤ s) (p : List γ) (c : List γ)
    (hc : c ∈ chunks s p) : c.length ≤ s ∧ c ≠ [] := by
  unfold chunks pyRange at hc
  obtain ⟨i, hi, hceq⟩ := List.mem_map.mp hc
  obtain ⟨j, hj, hij⟩ := List.mem_range'.mp hi
  have hjs : s * j < p.length := by
    have h2 : s * (j + 1) ≤ s * ((p.length + s - 1) / s) :=
      Nat.mul_le_mul_left s hj
    have h3 : s * ((p.length + s - 1) / s) ≤ p.length + s - 1 := by
      rw [Nat.mul_comm]
      exact Nat.div_mul_le_self _ _
    have h4 : s * (j + 1) = s * j + s := by ring
    omega
  constructor
  · rw [← hceq]
    simp only [List.length_take]
    omega
  · rw [← hceq]
    refine List.length_pos.mp ?_
    simp only [List.length_take, List.length_drop, hij, Nat.zero_add]
    omega

lemma chunks_get_of_not_last (s : Nat) (hs : 1 ≤ s) (p : List γ)
    (j : Nat) (c : List γ) (hj : j + 1 < (chunks s p).length)
    (hc : (chunks s p).get? j = some c) : c.length = s := by
  rw [chunks_length] at hj
  unfold chunks pyRange at hc
  rw [List.get?_eq_getElem?, List.getElem?_map,
    List.getElem?_range' 0 s (show j < (p.length + s - 1) / s by omega),
    Option.map_some'] at hc
  injection hc with hc
  rw [Nat.zero_add] at hc
  have hfit : s * j + s ≤ p.length := by
    have h2 : s * (j + 2) ≤ s * ((p.length + s - 1) / s) :=
      Nat.mul_le_mul_left s (by omega)
    have h3 : s * ((p.length + s - 1) / s) ≤ p.length + s - 1 := by
      rw [Nat.mul_comm]
      exact Nat.div_mul_le_self _ _
    have h4 : s * (j + 2) = s * j + s + s := by ring
    omega
  rw [← hc]
  simp only [List.length_take, List.length_drop, Nat.zero_add]
  omega

lemma feed_singleton_port (kw : List (String × Option (List γ)))
    (val : Option (List γ)) (cs : List (List γ))
    (u : Option (List γ)) (acc : List (Invocation (List γ))) :
    (cs.foldl
      (fun a b =>
        let r := handle_input a.1 (some b) (some 0) none
        (r.1, a.2 ++ r.2))
      ((⟨[u], kw, val⟩ : NodeState (List γ)), acc)).2
      = acc ++ cs.map (fun b => ⟨[some b], kw⟩) := by
  induction cs generalizing u acc with
  | nil => simp
  | cons c t ih =>
    have hstep : handle_input (⟨[u], kw, val⟩ : NodeState (List γ))
        (some c) (some 0) none = (⟨[some c], kw, val⟩, [⟨[some c], kw⟩]) := rfl
    simp only [List.foldl_cons, List.map_cons]
    rw [hstep]
    dsimp only at ih ⊢
    rw [ih]
    simp

/-- **C5.**  For every `BatchArgInputPort` with batch size `s ≥ 1` and
every ordered payload, `notify` partitions the payload into
`⌈L/s⌉ = (L + s - 1) / s` contiguous chunks whose concatenation is the
payload, each nonempty and of length at most `s`, with every chunk but
the last of length exactly `s`; and feeding the chunks to the node
triggers exactly one node invocation per chunk, in payload order, each
carrying its chunk. -/
theorem batch_port_chunks_and_triggers (s : Nat) (hs : 1 ≤ s)
    (payload : List γ) (kw : List (String × Option (List γ)))
    (val v0 : Option (List γ)) :
    (chunks s payload).length = (payload.length + s - 1) / s ∧
    (chunks s payload).flatten = payload ∧
    (∀ c ∈ chunks s payload, c.length ≤ s ∧ c ≠ []) ∧
    (∀ j c, j + 1 < (chunks s payload).length →
      (chunks s payload).get? j = some c → c.length = s) ∧
    (BatchArgInputPort.feed s 0 payload ⟨[v0], kw, val⟩).2
      = (chunks s payload).map (fun b => ⟨[some b], kw⟩) := by
  refine ⟨chunks_length s payload, chunks_flatten s hs payload,
    fun c hc => chunks_mem s hs payload c hc,
    fun j c hj hc => chunks_get_of_not_last s hs payload j c hj hc, ?_⟩
  unfold BatchArgInputPort.feed
  rw [feed_singleton_port]
  simp

/-- Witness for C5: batch size 2 on payload `[1,2,3,4,5]` — the chunks
concatenate back to the payload and the node receives one invocation per
chunk, in order. -/
theorem batch_port_chunks_and_triggers_witness :
    (1 ≤ 2) ∧
    (chunks 2 [1, 2, 3, 4, 5]).flatten = [1, 2, 3, 4, 5] ∧
    (BatchArgInputPort.feed 2 0 [1, 2, 3, 4, 5]
        (⟨[none], [], none⟩ : NodeState (List Nat))).2
      = (chunks 2 [1, 2, 3, 4, 5]).map (fun b => ⟨[some b], []⟩) :=
  ⟨by decide,
    (batch_port_chunks_and_triggers 2 (by decide) [1, 2, 3, 4, 5] [] none
      none).2.1,
    (batch_port_chunks_and_triggers 2 (by decide) [1, 2, 3, 4, 5] [] none
      none).2.2.2.2⟩

/-! ### Input handling claims -/

/-- **C3.**  For every node and every non-kwarg input event carrying value
`x` at reactive index `i` (in range), `handle_input` overwrites only the
cached reactive value at index `i` with `x` — index `i` now holds `x`,
every other index is unchanged, the passive map and node value are
untouched — and then invokes the worker exactly once with the entire
current reactive-value vector (positionally) and the entire passive-value
map (as keywords).  The invocation happens unconditionally (no waiting on
other indices). -/
theorem handle_input_updates_idx_and_fires_whole_vector
    (s : NodeState α) (x : α) (i : Nat)
    (hi : i < s.reactive_input_values.length) :
    (handle_input s (some x) (some i) none).1.reactive_input_values
        = s.reactive_input_values.set i (some x) ∧
    (handle_input s (some x) (some i) none).1.reactive_input_values.get? i
        = some (some x) ∧
    (∀ j, j ≠ i →
      (handle_input s (some x) (some i) none).1.reactive_input_values.get? j
        = s.reactive_input_values.get? j) ∧
    (handle_input s (some x) (some i) none).1.passive_input_values
        = s.passive_input_values ∧
    (handle_input s (some x) (some i) none).1.value = s.value ∧
    (handle_input s (some x) (some i) none).2
        = [⟨s.reactive_input_values.set i (some x), s.passive_input_values⟩] := by
  refine ⟨rfl, ?_, ?_, rfl, rfl, rfl⟩
  · exact List.get?_set_eq_of_lt (some x) hi
  · intro j hj
    exact List.get?_set_ne (some x) _ (fun h => hj h.symm)

/-- Witness for C3: cached values `[a0, a1] = [some 0, some 1]`, event
`x = 5` at index 1 — the worker is invoked with `(a0, x) = [some 0, some 5]`,
not `(x, x)`. -/
theorem handle_input_updates_idx_witness :
    (handle_input (α := Nat) ⟨[some 0, some 1], [], none⟩
        (some 5) (some 1) none).2
      = [⟨[some 0, some 5], []⟩] :=
  (handle_input_updates_idx_and_fires_whole_vector
    ⟨[some 0, some 1], [], none⟩ 5 1 (by decide)).2.2.2.2.2

/-- **C6.**  For every node and every keyword input event (value `y` on
passive key `k`), `handle_input` overwrites only the cached passive value
for `k`: it performs no worker invocation, leaves the node's value and
cached reactive vector unchanged, and — running the event end to end
through a synchronous worker — notifies no observer of the output port
and changes nothing but the passive map. -/
theorem handle_input_kwarg_no_trigger (s : NodeState α) (y : Option α)
    (k : String) (isStarted : Bool)
    (target : List (Option α) → List (String × Option α) → Except String α)
    (observers : List (Option α → Except String Unit)) :
    handle_input s y none (some k)
      = ({ s with passive_input_values := dictSet s.passive_input_values k y },
          []) ∧
    (handle_input s y none (some k)).1.reactive_input_values
      = s.reactive_input_values ∧
    (handle_input s y none (some k)).1.value = s.value ∧
    nodeHandleInputSync isStarted target observers s y none (some k)
      = ({ s with passive_input_values := dictSet s.passive_input_values k y },
          [], []) :=
  ⟨rfl, rfl, rfl, rfl⟩

/-- **C10.**  For every node, calling the public `notify` entry with
`data = None` bypasses every input port (it is exactly
`handle_input(None, None, None)`, whatever `port_idx` is): no cached
reactive or passive value is modified — the returned state is the input
state — yet the worker is still invoked once with the current cached
reactive vector and passive map. -/
theorem notify_none_bypasses_ports (s : NodeState α) (port_idx : Nat) :
    Node.notify s none port_idx = handle_input s none none none ∧
    Node.notify s none port_idx
      = (s, [⟨s.reactive_input_values, s.passive_input_values⟩]) :=
  ⟨rfl, rfl⟩

/-! ### Synchronous worker claims -/

lemma notify_go_all_ok (d : Option α)
    (observers : List (Option α → Except String Unit)) (i : Nat)
    (h : ∀ o ∈ observers, o d = .ok ()) :
    notify_observers.go d observers i = (List.range' i observers.length, none) := by
  induction observers generalizing i with
  | nil => rfl
  | cons o rest ih =>
    have ho := h o (by simp)
    simp only [notify_observers.go, ho]
    rw [ih (i + 1) (fun o' ho' => h o' (by simp [ho']))]
    simp [List.range'_succ]

/-- If no observer raises, fan-out notifies all of them, in registration
order. -/
lemma notify_observers_all_ok
    (observers : List (Option α → Except String Unit)) (d : Option α)
    (h : ∀ o ∈ observers, o d = .ok ()) :
    notify_observers observers d = (List.range observers.length, none) := by
  show notify_observers.go d observers 0 = _
  rw [notify_go_all_ok d observers 0 h, List.range_eq_range']

/-- **C4.**  For every started synchronous worker and every invocation
whose target raises, the exception is caught, logged with its traceback,
and not re-raised (`execute` returns normally): the node's value is
unchanged and no observer of the output port is notified for that
invocation; and a subsequent invocation whose target succeeds sets the
value and fans out to every observer, in order. -/
theorem syncWorker_target_failure_isolated
    (target : List (Option α) → List (String × Option α) → Except String α)
    (observers : List (Option α → Except String Unit))
    (v : Option α) (args args2 : List (Option α))
    (kwargs kwargs2 : List (String × Option α)) (e : String) (r : α)
    (herr : target args kwargs = .error e)
    (hok : target args2 kwargs2 = .ok r)
    (hobs : ∀ o ∈ observers, o (some r) = .ok ()) :
    SyncWorker.execute true target observers v args kwargs
      = ⟨v, [], syncFailLogs e⟩ ∧
    SyncWorker.execute true target observers v args2 kwargs2
      = ⟨some r, List.range observers.length, []⟩ := by
  constructor
  · simp [SyncWorker.execute, herr]
  · simp [SyncWorker.execute, hok,
      notify_observers_all_ok observers (some r) hobs]

/-- Witness for C4: target raising on `[some 0]` leaves the value `none`
and notifies nobody; the same worker then succeeding on `[some 1]` sets
the value to `7` and notifies the single observer. -/
theorem syncWorker_target_failure_isolated_witness :
    SyncWorker.execute true
      (fun args _ => if args = [some (0 : Nat)] then Except.error "boom"
        else Except.ok 7)
      [fun _ => Except.ok ()] none [some 0] []
      = ⟨none, [], syncFailLogs "boom"⟩ ∧
    SyncWorker.execute true
      (fun args _ => if args = [some (0 : Nat)] then Except.error "boom"
        else Except.ok 7)
      [fun _ => Except.ok ()] none [some 1] []
      = ⟨some 7, List.range 1, []⟩ :=
  syncWorker_target_failure_isolated _ _ none [some 0] [some 1] [] [] "boom" 7
    (by simp) (by simp)
    (by intro o ho; rw [List.mem_singleton] at ho; subst ho; rfl)

/-- **C9.**  For every started synchronous worker whose target succeeds
but where an observer raises during the fan-out, the exception is also
caught inside `execute` (which returns normally, the failure only
logged), yet the node's value has already been updated to the new result
before the failed fan-out — unlike a target failure, after which the
value stays unchanged. -/
theorem syncWorker_fanout_failure_after_value_set
    (target : List (Option α) → List (String × Option α) → Except String α)
    (observers : List (Option α → Except String Unit))
    (v : Option α) (args : List (Option α))
    (kwargs : List (String × Option α)) (r : α) (d : List Nat) (e : String)
    (hok : target args kwargs = .ok r)
    (hfan : notify_observers observers (some r) = (d, some e)) :
    SyncWorker.execute true target observers v args kwargs
      = ⟨some r, d, syncFailLogs e⟩ ∧
    (∀ (tf : List (Option α) → List (String × Option α) → Except String α)
        (e2 : String), tf args kwargs = .error e2 →
      (SyncWorker.execute true tf observers v args kwargs).value = v) := by
  constructor
  · simp [SyncWorker.execute, hok, hfan]
  · intro tf e2 htf
    simp [SyncWorker.execute, htf]

/-- Witness for C9: target returns `7`, the only observer raises — the
value is nevertheless `some 7` afterwards and the error is only logged. -/
theorem syncWorker_fanout_failure_witness :
    SyncWorker.execute true
      (fun _ _ => (Except.ok (7 : Nat) : Except String Nat))
      [fun _ => Except.error "obs"] none [] []
      = ⟨some 7, [], syncFailLogs "obs"⟩ :=
  (syncWorker_fanout_failure_after_value_set
    (fun _ _ => (Except.ok (7 : Nat) : Except String Nat))
    [fun _ => Except.error "obs"] none [] [] 7 [] "obs" rfl rfl).1

/-! ### Node construction claim -/

/-- **C7, counterexample.**  The claim fails on the code: a node built
without an explicit port list from a target of arity 2, but with a
supplied one-element defaults list, is constructed *without aborting*
(lines 308–311 take `default_reactive_input_values` as is, with no length
check), ends with 2 reactive ports yet a cached vector of 1 ≠ 2 entries. -/
theorem nodeInit_arity_counterexample :
    nodeInit (α := Nat) (TargetSpec.func ⟨2, []⟩) RIPsParam.nonePorts
        (some [some 7])
      = Except.ok ⟨[some 0, some 1], [some 7], []⟩ ∧
    ¬ ([some (7 : Nat)] : List (Option Nat)).length = 2 :=
  ⟨rfl, by decide⟩

/-- **C7, amended.**  For every node constructed without an explicit port
list from a work target of positional arity `k` (`num_args`, minus the
instance parameter for class targets), *provided any supplied non-empty
defaults list has exactly `k` entries*: the node has exactly `k` reactive
input ports with indices `0..k-1` and a cached reactive-value vector of
exactly `k` entries, each initialized to the supplied default or null;
and when an explicit port list of length ≠ `k` is supplied, construction
aborts. -/
theorem nodeInit_arity_amended (target : TargetSpec α)
    (defaults : Option (List (Option α)))
    (hwf : ∀ ds, defaults = some ds → ds ≠ [] →
      ds.length = numReactive target) :
    (∀ r, nodeInit target RIPsParam.nonePorts defaults = Except.ok r →
      r.reactive_port_idxs
          = (List.range (numReactive target)).map (fun i => some i) ∧
      r.reactive_port_idxs.length = numReactive target ∧
      r.reactive_input_values.length = numReactive target ∧
      (defaults = none →
        r.reactive_input_values = List.replicate (numReactive target) none) ∧
      (∀ ds, defaults = some ds → ds ≠ [] → r.reactive_input_values = ds)) ∧
    (∀ idxs : List (Option Nat), idxs.length ≠ numReactive target →
      nodeInit target (RIPsParam.plist idxs) defaults
        = Except.error "AssertionError") := by
  constructor
  · intro r hr
    simp only [nodeInit] at hr
    injection hr with hr
    subst hr
    refine ⟨rfl, by simp, ?_, ?_, ?_⟩
    · rcases defaults with _ | ds
      · simp [nodeInit.initValues]
      · by_cases hds : ds = []
        · subst hds
          simp [nodeInit.initValues]
        · have hlen := hwf ds rfl hds
          simp [nodeInit.initValues, hds, hlen]
    · rintro rfl
      simp [nodeInit.initValues]
    · rintro ds rfl hds
      simp [nodeInit.initValues, hds]
  · intro idxs hne
    simp only [nodeInit]
    rw [if_neg hne]

/-- Witness for C7 (amended): arity-2 target with keyword default
`b = 10` and a well-sized defaults list — construction succeeds with 2
ports, the 2 supplied cached values, and the seeded passive port; a
1-element explicit port list aborts. -/
theorem nodeInit_arity_amended_witness :
    nodeInit (α := Nat) (TargetSpec.func ⟨2, [("b", some 10)]⟩)
        RIPsParam.nonePorts (some [some 1, some 2])
      = Except.ok ⟨[some 0, some 1], [some 1, some 2], [("b", some 10)]⟩ ∧
    ([some (1 : Nat), some 2] : List (Option Nat)).length = 2 ∧
    nodeInit (α := Nat) (TargetSpec.func ⟨2, [("b", some 10)]⟩)
        (RIPsParam.plist [some 0]) (some [some 1, some 2])
      = Except.error "AssertionError" := by
  have h := nodeInit_arity_amended (α := Nat)
    (TargetSpec.func ⟨2, [("b", some 10)]⟩) (some [some 1, some 2])
    (by intro ds hds _; cases hds; rfl)
  refine ⟨rfl, ?_, h.2 [some 0] (by decide)⟩
  have h2 := (h.1 ⟨[some 0, some 1], [some 1, some 2], [("b", some 10)]⟩
    rfl).2.2.1
  exact h2

/-! ### Graph shutdown claim -/

/-- **C8.**  For every graph, `stop()` first marks the graph not alive,
then stops every node whose worker is asynchronous, in node-list order,
and only after all of those stops have returned (each `node.stop()` call
is synchronous and includes the async worker's full drain) stops every
node whose worker is synchronous, in node-list order: the trace is
`markNotAlive`, then a block `A` containing exactly the async-worker
nodes' stops, then a block `S` containing exactly the sync-worker nodes'
stops, each block in increasing node-index order. -/
theorem graph_stop_async_first_in_order (ws : List WorkerKind) :
    ∃ A S,
      Graph.stopTrace ws = StopEvent.markNotAlive :: (A ++ S) ∧
      (∀ e ∈ A, ∃ i, e = StopEvent.stopNode i .async ∧
        ws.get? i = some .async) ∧
      (∀ e ∈ S, ∃ i, e = StopEvent.stopNode i .sync ∧
        ws.get? i = some .sync) ∧
      (∀ i, ws.get? i = some .async → StopEvent.stopNode i .async ∈ A) ∧
      (∀ i, ws.get? i = some .sync → StopEvent.stopNode i .sync ∈ S) ∧
      List.Sorted (· < ·)
        (A.filterMap (fun e => match e with
          | StopEvent.stopNode i _ => some i
          | StopEvent.markNotAlive => none)) ∧
      List.Sorted (· < ·)
        (S.filterMap (fun e => match e with
          | StopEvent.stopNode i _ => some i
          | StopEvent.markNotAlive => none)) := by
  refine ⟨(ws.enum.filter (fun p => p.2 = .async)).map
      (fun p => StopEvent.stopNode p.1 .async),
    (ws.enum.filter (fun p => p.2 = .sync)).map
      (fun p => StopEvent.stopNode p.1 .sync),
    ?_, ?_, ?_, ?_, ?_, ?_, ?_⟩
  · rfl
  · intro e he
    obtain ⟨p, hp, rfl⟩ := List.mem_map.mp he
    obtain ⟨hpe, hpk⟩ := List.mem_filter.mp hp
    refine ⟨p.1, rfl, ?_⟩
    have := List.mem_enum_iff_getElem?.mp hpe
    rw [List.get?_eq_getElem?, this]
    rw [of_decide_eq_true hpk]
  · intro e he
    obtain ⟨p, hp, rfl⟩ := List.mem_map.mp he
    obtain ⟨hpe, hpk⟩ := List.mem_filter.mp hp
    refine ⟨p.1, rfl, ?_⟩
    have := List.mem_enum_iff_getElem?.mp hpe
    rw [List.get?_eq_getElem?, this]
    rw [of_decide_eq_true hpk]
  · intro i hi
    rw [List.get?_eq_getElem?] at hi
    refine List.mem_map.mpr ⟨(i, .async), ?_, rfl⟩
    exact List.mem_filter.mpr
      ⟨List.mem_enum_iff_getElem?.mpr hi, by simp⟩
  · intro i hi
    rw [List.get?_eq_getElem?] at hi
    refine List.mem_map.mpr ⟨(i, .sync), ?_, rfl⟩
    exact List.mem_filter.mpr
      ⟨List.mem_enum_iff_getElem?.mpr hi, by simp⟩
  · rw [List.filterMap_map]
    have hfm : ((fun e => match e with
        | StopEvent.stopNode i _ => some i
        | StopEvent.markNotAlive => none) ∘
          (fun p : Nat × WorkerKind => StopEvent.stopNode p.1 .async))
        = fun p : Nat × WorkerKind => some p.1 := rfl
    rw [hfm]
    have hsub : List.Sublist
        ((ws.enum.filter (fun p => p.2 = .async)).filterMap
          (fun p : Nat × WorkerKind => some p.1))
        (ws.enum.filterMap (fun p : Nat × WorkerKind => some p.1)) :=
      (List.filter_sublist _).filterMap _
    have hms : ws.enum.filterMap (fun p : Nat × WorkerKind => some p.1)
        = List.range ws.length := by
      rw [show (fun p : Nat × WorkerKind => some p.1)
          = some ∘ Prod.fst from rfl]
      rw [List.filterMap_eq_map, List.enum_map_fst]
    rw [hms] at hsub
    exact (List.pairwise_lt_range ws.length).sublist hsub
  · rw [List.filterMap_map]
    have hfm : ((fun e => match e with
        | StopEvent.stopNode i _ => some i
        | StopEvent.markNotAlive => none) ∘
          (fun p : Nat × WorkerKind => StopEvent.stopNode p.1 .sync))
        = fun p : Nat × WorkerKind => some p.1 := rfl
    rw [hfm]
    have hsub : List.Sublist
        ((ws.enum.filter (fun p => p.2 = .sync)).filterMap
          (fun p : Nat × WorkerKind => some p.1))
        (ws.enum.filterMap (fun p : Nat × WorkerKind => some p.1)) :=
      (List.filter_sublist _).filterMap _
    have hms : ws.enum.filterMap (fun p : Nat × WorkerKind => some p.1)
        = List.range ws.length := by
      rw [show (fun p : Nat × WorkerKind => some p.1)
          = some ∘ Prod.fst from rfl]
      rw [List.filterMap_eq_map, List.enum_map_fst]
    rw [hms] at hsub
    exact (List.pairwise_lt_range ws.length).sublist hsub

/-! ### Async worker `join` claim (C2)

The claim says every dequeued work item is marked processed whether the
target succeeded or raised, so `join()` terminates even after failures.
The code's `except` branch (lines 240–242) never calls
`worker_queue.task_done()`, so a failed item leaves the work queue's
unfinished-task count positive forever and `join()` blocks.  The theorem
evaluates the loop body at the failing input. -/

/-- **C2, code divergence.**  One item is enqueued (unfinished count 1)
and dequeued; the target raises.  The loop body logs the failure but does
*not* mark the item processed: the unfinished count stays 1, so
`AsyncWorker.join` can never return.  For contrast, the same item under a
succeeding target is marked processed (count 0), as is a poison pill. -/
theorem workerLoopBody_failure_never_marked_processed :
    (workerLoopBody (fun _ : Nat => (Except.error "boom" : Except String Nat))
        ⟨1, 0, [], []⟩ (WorkPayload.witem 0)).wq_unfinished = 1 ∧
    ¬ AsyncWorker.joinReturns
      (workerLoopBody (fun _ : Nat => (Except.error "boom" : Except String Nat))
        ⟨1, 0, [], []⟩ (WorkPayload.witem 0)) ∧
    (workerLoopBody (fun _ : Nat => (Except.error "boom" : Except String Nat))
        ⟨1, 0, [], []⟩ (WorkPayload.witem 0)).logs ≠ [] ∧
    (workerLoopBody (fun n : Nat => (Except.ok n : Except String Nat))
        ⟨1, 0, [], []⟩ (WorkPayload.witem 0)).wq_unfinished = 0 ∧
    (workerLoopBody (fun n : Nat => (Except.ok n : Except String Nat))
        ⟨1, 0, [], []⟩ WorkPayload.pill).wq_unfinished = 0 := by
  refine ⟨rfl, ?_, ?_, rfl, rfl⟩
  · intro h
    exact absurd h.1 (by decide)
  · decide

end Colony
